import Mathlib

/-!
Verification of the Contree voxel spatial index (src/contree/mod.rs and
src/contree/gpu_binding.rs).

The Rust code is embedded shallowly:

* `u64` bitmasks and `u32` addresses become `ℕ`; every bit operation of the
  source (`&`, `|`, `^`, `!`, `<<`, `>>`) is translated literally.  Shifted
  values in `morton_code` can exceed 2^64, but each shift is immediately
  followed by a mask below 2^61, so the truncation a real `u64` performs is
  invisible and no `% 2^64` is needed.  The `!mask` complement is translated
  as `(2^64 - 1) ^^^ mask`, which agrees with `u64` negation for the single
  bit masks the code builds.
* `f32` coordinates become `ℚ`; the arithmetic the code performs on them
  (subtraction, adding `size/2` and `0.5`, `trunc`, `round`, `as u32`)
  is exact on the inputs exercised here, so the rational model is faithful.
* Operations whose Rust counterpart can panic (`Vec` indexing, `unwrap`,
  `expect`, `todo!`, `unreachable!`) return `Except String`, carrying the
  panic message.
* The `flume` channel of the GPU binding is modelled by a list of the
  commands successfully sent so far; a channel whose consumer was dropped
  (`connected = false`) drops the message, exactly as the ignored
  `Result` of `Sender::send` does.
* Rust `for` loops that iterate over a range computed before the loop are
  modelled with an explicit fuel argument equal to that range's length, and
  the unbounded `while n != 0` loop of `to_base_64` with fuel `n`, which
  over-approximates its iteration count since `n` shrinks every step.
-/

abbrev Addr := ℕ
abbrev ChildIndex := ℕ
abbrev Pos := ℚ × ℚ × ℚ

deriving instance DecidableEq for Except

/-- `f32::trunc` followed by the integral part: rounding toward zero. -/
def ratTrunc (q : ℚ) : ℤ := if q < 0 then -⌊-q⌋ else ⌊q⌋

/-- `f32::round`: rounding half away from zero. -/
def ratRound (q : ℚ) : ℤ := if q < 0 then -⌊-q + 1/2⌋ else ⌊q + 1/2⌋

/-- `as u32` on an integral float value: saturating conversion. -/
def toU32 (i : ℤ) : ℕ := min i.toNat (2 ^ 32 - 1)

/-- `Contree::svo_abs`: negative values count one unit further out. -/
def svo_abs (v : ℚ) : ℚ := if v < 0 then -v - 1 else v

/-- `!mask` on a `u64`. -/
def not64 (m : ℕ) : ℕ := (2 ^ 64 - 1) ^^^ m

/-- Leaf record: `ContreeLeaf { contains: u64, light: u64, children: [u8; 64] }`. -/
structure ContreeLeaf where
  contains : ℕ
  light : ℕ
  children : List ℕ
deriving DecidableEq, Repr

/-- Inner record: `ContreeInner { contains: u64, leaf: u64, light: u64, children: [u32; 64] }`. -/
structure ContreeInner where
  contains : ℕ
  leaf : ℕ
  light : ℕ
  children : List ℕ
deriving DecidableEq, Repr

/-- `size_of::<ContreeInner>()`: 3 × u64 + 64 × u32 under `repr(C)`. -/
def sizeofContreeInner : ℕ := 280

/-- `size_of::<ContreeLeaf>()`: 2 × u64 + 64 × u8 under `repr(C)`. -/
def sizeofContreeLeaf : ℕ := 80

/-- Payload of a `BufferWriteCommand` (`cast_slice(data).to_vec()`). -/
inductive Payload where
  | inner (data : List ContreeInner)
  | leaf (data : List ContreeLeaf)
deriving DecidableEq, Repr

/-- `renderer::BufferWriteCommand`; buffers are identified by an id. -/
structure BufferWriteCommand where
  target_buffer : ℕ
  offset : ℕ
  new_data : Payload
deriving DecidableEq, Repr

/-- `GPUBinding`: either detached (`Dummy`) or a channel to the render loop.
`connected = false` models a channel whose consumer has been dropped, in
which case `Sender::send` fails and the write is silently lost. -/
inductive GPUBinding where
  | Dummy
  | Channel (connected : Bool) (inner_buffer leaf_buffer : ℕ)
      (sent : List BufferWriteCommand)
deriving DecidableEq, Repr

/-- `GPUBinding::write_inner`: sends a write for the inner buffer at byte
offset `addr * size_of::<ContreeInner>()`. -/
def GPUBinding.write_inner (g : GPUBinding) (addr : Addr)
    (data : List ContreeInner) : GPUBinding :=
  match g with
  | .Dummy => .Dummy
  | .Channel connected ib lb sent =>
      if connected then
        .Channel connected ib lb
          (sent ++ [⟨ib, addr * sizeofContreeInner, .inner data⟩])
      else
        .Channel connected ib lb sent

/-- `GPUBinding::write_leaf`.  The source destructures `inner_buffer, ..`
and sends the command to `inner_buffer.clone()`, so leaf writes target the
inner buffer; the offset uses `size_of::<ContreeLeaf>()`. -/
def GPUBinding.write_leaf (g : GPUBinding) (addr : Addr)
    (data : List ContreeLeaf) : GPUBinding :=
  match g with
  | .Dummy => .Dummy
  | .Channel connected ib lb sent =>
      if connected then
        .Channel connected ib lb
          (sent ++ [⟨ib, addr * sizeofContreeLeaf, .leaf data⟩])
      else
        .Channel connected ib lb sent

/-- The `Contree` state. -/
structure Contree where
  center_offset : Pos
  root : Addr
  size : ℕ
  inners : List ContreeInner
  leaves : List ContreeLeaf
  inner_tombstones : List Addr
  leaf_tombstones : List Addr
  gpu : GPUBinding
deriving DecidableEq, Repr

/-- The all-zero inner record built by `new_root_node`. -/
def zeroInner : ContreeInner := ⟨0, 0, 0, List.replicate 64 0⟩

/-- The all-zero leaf record built by `new_leaf_node`. -/
def zeroLeaf : ContreeLeaf := ⟨0, 0, List.replicate 64 0⟩

/-- `Contree::new_root_node`: pop an inner tombstone and overwrite it with a
zeroed record, or append a new zeroed record; mirror the write. -/
def Contree.new_root_node (s : Contree) : Except String (Contree × Addr) :=
  let new_node := zeroInner
  match s.inner_tombstones.getLast? with
  | some addr =>
      if addr < s.inners.length then
        let s' : Contree :=
          { s with inners := s.inners.set addr new_node,
                   inner_tombstones := s.inner_tombstones.dropLast }
        .ok ({ s' with gpu := s'.gpu.write_inner addr [new_node] }, addr)
      else
        .error "index out of bounds"
  | none =>
      let addr := s.inners.length
      let s' : Contree := { s with inners := s.inners ++ [new_node] }
      .ok ({ s' with gpu := s'.gpu.write_inner addr [new_node] }, addr)

/-- `Contree::update_parent_bitflags`: clear then set the `contains`,
`leaf` and `light` bits of slot `child`, and mirror the parent record. -/
def Contree.update_parent_bitflags (s : Contree) (parent : Addr)
    (child : ChildIndex) (ex lf li : Bool) : Except String Contree :=
  match s.inners[parent]? with
  | none => .error "index out of bounds"
  | some node =>
      let mask : ℕ := 1 <<< child
      let contains := (node.contains &&& not64 mask) |||
        ((if ex then 1 else 0) <<< child)
      let leaf := (node.leaf &&& not64 mask) ||| ((if lf then 1 else 0) <<< child)
      let light := (node.light &&& not64 mask) ||| ((if li then 1 else 0) <<< child)
      let node' : ContreeInner := { node with contains := contains, leaf := leaf, light := light }
      .ok { s with inners := s.inners.set parent node',
                   gpu := s.gpu.write_inner parent [node'] }

/-- `Contree::new_inner_node`: allocate via `new_root_node`, wire the child
slot of `parent`, and update the parent's bitflags. -/
def Contree.new_inner_node (s : Contree) (parent : Addr) (index : ChildIndex) :
    Except String (Contree × Addr) :=
  (s.new_root_node).bind fun r =>
    let s1 := r.1
    let addr := r.2
    match s1.inners[parent]? with
    | none => .error "index out of bounds"
    | some pnode =>
        let pnode' : ContreeInner := { pnode with children := pnode.children.set index addr }
        let s2 : Contree := { s1 with inners := s1.inners.set parent pnode' }
        (s2.update_parent_bitflags parent index true false false).bind fun s3 =>
          .ok (s3, addr)

/-- `Contree::new_leaf_node`: allocate a zeroed leaf (tombstone or append),
wire the child slot of `parent`, update the parent's bitflags, and mirror
the new leaf. -/
def Contree.new_leaf_node (s : Contree) (parent : Addr) (index : ChildIndex) :
    Except String (Contree × Addr) :=
  let new_node := zeroLeaf
  let alloc : Except String (Contree × Addr) :=
    match s.leaf_tombstones.getLast? with
    | some addr =>
        if addr < s.leaves.length then
          .ok ({ s with leaves := s.leaves.set addr new_node,
                        leaf_tombstones := s.leaf_tombstones.dropLast }, addr)
        else
          .error "index out of bounds"
    | none =>
        .ok ({ s with leaves := s.leaves ++ [new_node] }, s.leaves.length)
  alloc.bind fun r =>
    let s1 := r.1
    let addr := r.2
    match s1.inners[parent]? with
    | none => .error "index out of bounds"
    | some pnode =>
        let pnode' : ContreeInner := { pnode with children := pnode.children.set index addr }
        let s2 : Contree := { s1 with inners := s1.inners.set parent pnode' }
        (s2.update_parent_bitflags parent index true true false).bind fun s3 =>
          .ok ({ s3 with gpu := s3.gpu.write_leaf addr [new_node] }, addr)

/-- `Contree::default()`: zeroed fields, `size = 16`, then `new_root_node`. -/
def Contree.default : Contree :=
  let base : Contree := ⟨(0, 0, 0), 0, 16, [], [], [], [], .Dummy⟩
  match base.new_root_node with
  | .ok (s, _) => s
  | .error _ => base

/-- The bit-interleaving helper inside `morton_code`, written out with the
source's magic masks, applied in `enumerate().rev()` order. -/
def interleave (val : ℕ) : ℕ :=
  let x0 := val &&& 0x1fffff
  let x1 := (x0 ||| (x0 <<< 32)) &&& 0x1f00000000ffff
  let x2 := (x1 ||| (x1 <<< 16)) &&& 0x1f0000ff0000ff
  let x3 := (x2 ||| (x2 <<< 8)) &&& 0x100f00f00f00f00f
  let x4 := (x3 ||| (x3 <<< 4)) &&& 0x10c30c30c30c30c3
  (x4 ||| (x4 <<< 2)) &&& 0x1249249249249249

/-- `morton_code(norm_p)`. -/
def morton_code (p : ℕ × ℕ × ℕ) : ℕ :=
  (interleave p.1 <<< 2) ||| (interleave p.2.1 <<< 1) ||| interleave p.2.2

/-- The `while n != 0` loop of `to_base_64`.  Each iteration shifts `n`
right by 6 bits, and a `u64` code — `morton_code` masks each axis to
21 bits, so codes have at most 63 bits — reaches zero in at most 11
iterations; fuel 64 therefore never runs out. -/
def to_base_64_go : ℕ → ℕ → List ChildIndex
  | 0, _ => []
  | f + 1, n => if n = 0 then [] else (n &&& 0b111111) :: to_base_64_go f (n >>> 6)

/-- `Contree::to_base_64`: base-64 digits, least significant first;
`0` decodes to the single digit `0`. -/
def Contree.to_base_64 (code : ℕ) : List ChildIndex :=
  if code = 0 then [0] else to_base_64_go 64 code

/-- `Contree::normalize`: `(p - center_offset + size/2 + 0.5).trunc().as_uvec3()`. -/
def Contree.normalize (s : Contree) (p : Pos) : ℕ × ℕ × ℕ :=
  let f := fun (x c : ℚ) => toU32 (ratTrunc (x - c + (s.size : ℚ) / 2 + 1/2))
  (f p.1 s.center_offset.1, f p.2.1 s.center_offset.2.1, f p.2.2 s.center_offset.2.2)

/-- `Contree::in_bounds`:
`(p - center_offset).map(svo_abs).round().as_uvec3().max_element() < size / 2`. -/
def Contree.in_bounds (s : Contree) (p : Pos) : Bool :=
  let g := fun (x c : ℚ) => toU32 (ratRound (svo_abs (x - c)))
  decide (max (g p.1 s.center_offset.1)
    (max (g p.2.1 s.center_offset.2.1) (g p.2.2 s.center_offset.2.2)) < s.size / 2)

/-- `FindResult`. -/
structure FindResult where
  leaf_address : Option Addr
  traversal_stack : List ChildIndex
  parent_addrs : List Addr
  node_size : ℕ
deriving DecidableEq, Repr

/-- The `for i in 0..(traversal_stack.len())` walk of `Contree::find`;
the fuel is the loop bound, fixed before the loop mutates the stack.
Exhausted fuel is the `unreachable!()` after the loop. -/
def Contree.find_go (s : Contree) :
    ℕ → List ChildIndex → List Addr → ContreeInner → Except String FindResult
  | 0, _, _, _ => .error "internal error: entered unreachable code"
  | fuel + 1, stack, parents, current =>
      match stack.getLast? with
      | none => .error "called `Option::unwrap()` on a `None` value"
      | some index =>
          let child_addr := current.children.getD index 0
          let child_exists := current.contains &&& (1 <<< index) ≠ 0
          let child_leaf := current.leaf &&& (1 <<< index) ≠ 0
          if child_exists ∧ child_leaf then
            .ok ⟨some child_addr, stack.dropLast, parents,
              s.size / 4 ^ (parents.length + 1)⟩
          else if child_exists then
            match s.inners[child_addr]? with
            | none => .error "index out of bounds"
            | some node =>
                Contree.find_go s fuel stack.dropLast (parents ++ [child_addr]) node
          else
            .ok ⟨none, stack, parents, s.size / 4 ^ (parents.length - 1)⟩

/-- `Contree::find`: decode the Morton digits, pop one per given parent,
then walk from the root. -/
def Contree.find (s : Contree) (pos : Pos) (given_parent_addrs : List Addr) :
    Except String FindResult :=
  let code := morton_code (s.normalize pos)
  let stack0 := Contree.to_base_64 code
  let stack := given_parent_addrs.foldl (fun st _ => st.dropLast) stack0
  let parents := given_parent_addrs ++ [s.root]
  match s.inners[s.root]? with
  | none => .error "index out of bounds"
  | some current => Contree.find_go s stack.length stack parents current

/-- The `for (i, child_index) in traversal_stack.iter().enumerate().rev()`
loop of `add_parents`; `i` is the current index into the stack. -/
def Contree.add_parents_go (stack : List ChildIndex) :
    ℕ → Contree → List Addr → Addr → Except String (Contree × List Addr × Addr × ChildIndex)
  | 0, s, parents, leaf_addr =>
      match parents.getLast? with
      | none => .error "No root!"
      | some _ => .ok (s, parents, leaf_addr, stack.getD 0 0)
  | 1, s, parents, _leaf_addr =>
      match parents.getLast? with
      | none => .error "No root!"
      | some parent =>
          (s.new_leaf_node parent (stack.getD 1 0)).bind fun r =>
            Contree.add_parents_go stack 0 r.1 parents r.2
  | n + 2, s, parents, leaf_addr =>
      match parents.getLast? with
      | none => .error "No root!"
      | some parent =>
          (s.new_inner_node parent (stack.getD (n + 2) 0)).bind fun r =>
            Contree.add_parents_go stack (n + 1) r.1 (parents ++ [r.2]) leaf_addr

/-- `Contree::add_parents`.  An empty stack skips the loop and reaches
`unreachable!("Never reached bottom of traversal stack!")`. -/
def Contree.add_parents (s : Contree) (stack : List ChildIndex)
    (parents : List Addr) : Except String (Contree × List Addr × Addr × ChildIndex) :=
  match stack with
  | [] => .error "internal error: entered unreachable code: Never reached bottom of traversal stack!"
  | _ => Contree.add_parents_go stack (stack.length - 1) s parents 0

/-- `Contree::insert`.  The growth loop allocates a new root, re-wires the
old one at slot 0, multiplies `size` by 4, mirrors the write — and then
hits `todo!()`, so an out-of-bounds insert never completes. -/
def Contree.insert (s : Contree) (pos : Pos) (material : ℕ) :
    Except String (Contree × List Addr) :=
  if s.in_bounds pos then
    (s.find pos []).bind fun fr =>
      match fr.leaf_address with
      | some leaf_addr =>
          match s.leaves[leaf_addr]? with
          | none => .error "Leaf node does not exist!"
          | some leaf =>
              match fr.traversal_stack.getLast? with
              | none => .error "called `Option::unwrap()` on a `None` value"
              | some child_index =>
                  let leaf' : ContreeLeaf :=
                    { leaf with children := leaf.children.set child_index material,
                                contains := leaf.contains ||| (1 <<< child_index) }
                  let s1 : Contree := { s with leaves := s.leaves.set leaf_addr leaf' }
                  .ok ({ s1 with gpu := s1.gpu.write_leaf leaf_addr [leaf'] },
                    fr.parent_addrs)
      | none =>
          (s.add_parents fr.traversal_stack fr.parent_addrs).bind fun r =>
            let s1 := r.1
            let parents' := r.2.1
            let leaf_addr := r.2.2.1
            let child_index := r.2.2.2
            match s1.leaves[leaf_addr]? with
            | none => .error "Leaf node does not exist!"
            | some leaf =>
                let leaf' : ContreeLeaf :=
                  { leaf with children := leaf.children.set child_index material,
                              contains := leaf.contains ||| (1 <<< child_index) }
                let s2 : Contree := { s1 with leaves := s1.leaves.set leaf_addr leaf' }
                .ok ({ s2 with gpu := s2.gpu.write_leaf leaf_addr [leaf'] }, parents')
  else
    (s.new_root_node).bind fun _ =>
      .error "not yet implemented"

/-- The host-observable part of the state: everything except the device
mirror binding. -/
def Contree.host (s : Contree) :
    Pos × Addr × ℕ × List ContreeInner × List ContreeLeaf × List Addr × List Addr :=
  (s.center_offset, s.root, s.size, s.inners, s.leaves,
    s.inner_tombstones, s.leaf_tombstones)

/-- One call of the public API. -/
inductive Op where
  | ins (p : Pos) (m : ℕ)
  | fnd (p : Pos) (given : List Addr)
deriving DecidableEq, Repr

/-- A return value of one API call. -/
inductive RetVal where
  | inserted (parent_addrs : List Addr)
  | found (fr : FindResult)
deriving DecidableEq, Repr

/-- Run a sequence of `insert`/`find` calls, collecting the return values;
a Rust panic stops the run. -/
def Contree.run (s : Contree) : List Op → Except String (Contree × List RetVal)
  | [] => .ok (s, [])
  | .ins p m :: ops =>
      (s.insert p m).bind fun r =>
        (Contree.run r.1 ops).map fun t => (t.1, .inserted r.2 :: t.2)
  | .fnd p given :: ops =>
      (s.find p given).bind fun fr =>
        (Contree.run s ops).map fun t => (t.1, .found fr :: t.2)

/-- Modelled from the spec: the tree depth implied by `size`, i.e. the
number of 64-way subdivision levels of the current cube (`size` cells per
axis, 4 per axis and level), absent from the code.  Written with fuel so
that it evaluates in the kernel; `log4 n n` is `Nat.log 4 n`. -/
def log4 : ℕ → ℕ → ℕ
  | 0, _ => 0
  | f + 1, n => if n < 4 then 0 else log4 f (n / 4) + 1

/-- Modelled from the spec: depth implied by `size` (§2, §8). -/
def treeDepth (size : ℕ) : ℕ := log4 size size

/-- A `Contree` whose mirror is a live channel: inner buffer id 7, leaf
buffer id 9, nothing sent yet, one zeroed root node. -/
def mirrorDemo : Contree :=
  ⟨(0, 0, 0), 0, 16, [zeroInner], [], [], [], .Channel true 7 9 []⟩

/-- The state of the source's `traverse_tiny` test: a root whose slot 56
holds leaf 0, which stores material 10 in voxel 0. -/
def tinyTree : Contree :=
  ⟨(0, 0, 0), 0, 16, [⟨2 ^ 56, 2 ^ 56, 0, List.replicate 64 0⟩],
    [⟨1, 0, (List.replicate 64 0).set 0 10⟩], [], [], .Dummy⟩

/-- A state with one tombstone of each kind, for exercising allocation. -/
def tombDemo : Contree :=
  ⟨(0, 0, 0), 0, 16, [zeroInner, ⟨5, 5, 5, List.replicate 64 9⟩], [zeroLeaf],
    [1], [0], .Dummy⟩

/-- `tombDemo` after `new_root_node`: address 1 was recycled and zeroed. -/
def tombDemoInner : Contree :=
  ⟨(0, 0, 0), 0, 16, [zeroInner, zeroInner], [zeroLeaf], [], [0], .Dummy⟩

/-- `tombDemo` after `new_leaf_node 0 3`: leaf address 0 was recycled and
zeroed, and the parent's slot-3 bits were set. -/
def tombDemoLeaf : Contree :=
  ⟨(0, 0, 0), 0, 16, [⟨8, 8, 0, List.replicate 64 0⟩, ⟨5, 5, 5, List.replicate 64 9⟩],
    [zeroLeaf], [1], [], .Dummy⟩

/-- `tinyTree` after `insert (0,0,0) 7`: voxel 0 of leaf 0 now holds 7. -/
def tinyTreeAfter : Contree :=
  ⟨(0, 0, 0), 0, 16, [⟨2 ^ 56, 2 ^ 56, 0, List.replicate 64 0⟩],
    [⟨1, 0, (List.replicate 64 0).set 0 7⟩], [], [], .Dummy⟩

/-- `Contree::default()` after `insert (0,0,0) 10`: the root gained a leaf
child at slot 56 holding material 10 in voxel 0. -/
def defaultAfterInsert : Contree :=
  ⟨(0, 0, 0), 0, 16, [⟨2 ^ 56, 2 ^ 56, 0, (List.replicate 64 0).set 56 0⟩],
    [⟨1, 0, (List.replicate 64 0).set 0 10⟩], [], [], .Dummy⟩

/-- States reachable from `Contree::default()` by successful `insert` calls
(`find` takes `&self` and cannot change the state). -/
inductive Reachable : Contree → Prop where
  | base : Reachable Contree.default
  | step {s : Contree} {p : Pos} {m : ℕ} {s' : Contree} {r : List Addr} :
      Reachable s → s.insert p m = .ok (s', r) → Reachable s'

/-- The invariant that actually holds of every reachable state: the tree
never grows (growth panics at `todo!()`), nothing is ever freed, and the
root is the single inner node, whose `leaf` mask equals its `contains`
mask and whose occupied child slots hold valid leaf addresses. -/
def ContreeInv (s : Contree) : Prop :=
  s.root = 0 ∧ s.size = 16 ∧ s.center_offset = (0, 0, 0) ∧
  s.inner_tombstones = [] ∧ s.leaf_tombstones = [] ∧ s.gpu = .Dummy ∧
  ∃ r : ContreeInner, s.inners = [r] ∧ r.leaf = r.contains ∧
    r.children.length = 64 ∧
    ∀ i : ℕ, i < 64 → r.contains &&& (1 <<< i) ≠ 0 →
      r.children.getD i 0 < s.leaves.length

/-! ## Evaluation lemmas for the rational coordinate arithmetic -/

lemma in_bounds16_zero (s : Contree) (hs : s.size = 16)
    (hc : s.center_offset = (0, 0, 0)) : s.in_bounds (0, 0, 0) = true := by
  have h0 : (⌊(2⁻¹ : ℚ)⌋ : ℤ) = 0 := by norm_num [Int.floor_eq_iff]
  simp [Contree.in_bounds, svo_abs, ratRound, toU32, hs, hc, h0]

lemma normalize16_zero (s : Contree) (hs : s.size = 16)
    (hc : s.center_offset = (0, 0, 0)) : s.normalize (0, 0, 0) = (8, 8, 8) := by
  have h0 : (⌊(16/2 + 2⁻¹ : ℚ)⌋ : ℤ) = 8 := by norm_num [Int.floor_eq_iff]
  simp [Contree.normalize, ratTrunc, toU32, hs, hc]
  norm_num [h0]
  decide

lemma in_bounds16_neg8 (s : Contree) (hs : s.size = 16)
    (hc : s.center_offset = (0, 0, 0)) : s.in_bounds (-8, -8, -8) = true := by
  have h0 : (⌊(8 - 1 + 2⁻¹ : ℚ)⌋ : ℤ) = 7 := by norm_num [Int.floor_eq_iff]
  simp [Contree.in_bounds, svo_abs, ratRound, toU32, hs, hc]
  norm_num [h0]

lemma normalize16_neg8 (s : Contree) (hs : s.size = 16)
    (hc : s.center_offset = (0, 0, 0)) : s.normalize (-8, -8, -8) = (0, 0, 0) := by
  have h0 : (⌊(-8 + 16/2 + 2⁻¹ : ℚ)⌋ : ℤ) = 0 := by norm_num [Int.floor_eq_iff]
  have h1 : (⌊(16/2 - 8 + 2⁻¹ : ℚ)⌋ : ℤ) = 0 := by norm_num [Int.floor_eq_iff]
  have h2 : (⌊(2⁻¹ : ℚ)⌋ : ℤ) = 0 := by norm_num [Int.floor_eq_iff]
  simp [Contree.normalize, ratTrunc, toU32, hs, hc]
  norm_num [h0, h1, h2]

lemma in_bounds16_p100 (s : Contree) (hs : s.size = 16)
    (hc : s.center_offset = (0, 0, 0)) : s.in_bounds (100, 0, 0) = false := by
  have h0 : (⌊(100 + 2⁻¹ : ℚ)⌋ : ℤ) = 100 := by norm_num [Int.floor_eq_iff]
  have h1 : (⌊(2⁻¹ : ℚ)⌋ : ℤ) = 0 := by norm_num [Int.floor_eq_iff]
  simp [Contree.in_bounds, svo_abs, ratRound, toU32, hs, hc]
  norm_num [h0, h1]

/-! ## C6: concrete Morton vectors -/

/-- C6: `morton_code (5, 8, 9)` is exactly `0b011100000101`, and
`morton_code (0, 0, 0)` is `0`, whose digit decoding is exactly `[0]`. -/
theorem morton_concrete_vectors :
    morton_code (5, 8, 9) = 0b011100000101 ∧ morton_code (0, 0, 0) = 0 ∧
    Contree.to_base_64 (morton_code (0, 0, 0)) = [0] := by
  decide

/-! ## C7: digit-sequence length versus implied tree depth -/

/-- C7 counterexample: the coordinate `(0,0,0)` is in range for the default
cube (`size = 16`), but its Morton code decodes to a single digit while the
depth implied by `size = 16` is two levels. -/
theorem to_base_64_length_ne_depth :
    ¬ (Contree.to_base_64 (morton_code (0, 0, 0))).length =
      treeDepth Contree.default.size := by
  decide

/-- C7 (amended): for coordinates in range for the default cube, the digit
sequence has length between 1 and the depth implied by `size`, and
re-deriving it from the same coordinate gives the same sequence. -/
theorem to_base_64_length_le_depth :
    ∀ x < 16, ∀ y < 16, ∀ z < 16,
      1 ≤ (Contree.to_base_64 (morton_code (x, y, z))).length ∧
      (Contree.to_base_64 (morton_code (x, y, z))).length ≤
        treeDepth Contree.default.size ∧
      Contree.to_base_64 (morton_code (x, y, z)) =
        Contree.to_base_64 (morton_code (x, y, z)) := by
  decide

/-- Witness for the amended C7 at the spec's own coordinate `(5, 8, 9)`. -/
theorem to_base_64_length_le_depth_witness :
    1 ≤ (Contree.to_base_64 (morton_code (5, 8, 9))).length ∧
    (Contree.to_base_64 (morton_code (5, 8, 9))).length ≤
      treeDepth Contree.default.size ∧
    Contree.to_base_64 (morton_code (5, 8, 9)) =
      Contree.to_base_64 (morton_code (5, 8, 9)) :=
  to_base_64_length_le_depth 5 (by decide) 8 (by decide) 9 (by decide)

/-! ## C1: insert followed by find -/

/-- C1: the in-bounds position `(-8, -8, -8)` of the default tree
normalizes to Morton code `0`, a single digit, for which `add_parents`
returns without creating a leaf; `insert` then panics with
"Leaf node does not exist!" instead of storing the material. -/
theorem insert_single_digit_code_panics :
    Contree.default.insert (-8, -8, -8) 7 = .error "Leaf node does not exist!" := by
  have hb := in_bounds16_neg8 Contree.default rfl rfl
  have hn := normalize16_neg8 Contree.default rfl rfl
  simp only [Contree.insert, hb, if_true, Contree.find, hn]
  decide

/-! ## C2: growth of an out-of-bounds insert -/

/-- C2: inserting at `(100, 0, 0)`, which is outside the default cube,
performs one growth step and then stops at `todo!()`: `insert` never
completes, so no repeated growth and no preservation of content occurs. -/
theorem insert_out_of_bounds_panics :
    Contree.default.insert (100, 0, 0) 1 = .error "not yet implemented" := by
  have hb := in_bounds16_p100 Contree.default rfl rfl
  simp only [Contree.insert, hb]
  decide

/-! ## C4: device mirror write commands -/

/-- C4: inserting `(0,0,0)` with a live channel (inner buffer 7, leaf
buffer 9) emits three write commands; the two leaf-record writes target
buffer 7 — the inner buffer — because `write_leaf` sends to
`inner_buffer.clone()`, contradicting the claim that leaf writes go to the
leaf buffer.  The byte offsets are `address × record_size` as claimed. -/
theorem write_leaf_targets_inner_buffer :
    (mirrorDemo.insert (0, 0, 0) 10).map (fun r => r.1.gpu) =
      .ok (.Channel true 7 9
        [⟨7, 0 * sizeofContreeInner, .inner [⟨2 ^ 56, 2 ^ 56, 0, List.replicate 64 0⟩]⟩,
         ⟨7, 0 * sizeofContreeLeaf, .leaf [zeroLeaf]⟩,
         ⟨7, 0 * sizeofContreeLeaf, .leaf [⟨1, 0, (List.replicate 64 0).set 0 10⟩]⟩]) := by
  have hb := in_bounds16_zero mirrorDemo rfl rfl
  have hn := normalize16_zero mirrorDemo rfl rfl
  simp only [Contree.insert, hb, if_true, Contree.find, hn]
  decide

/-! ## C3: allocation pops the newest tombstone and zeroes the record -/

/-- C3: `new_root_node` (inner allocation) and `new_leaf_node` (leaf
allocation) return the most recently pushed tombstone of their kind when
one exists — without appending a record — and otherwise append a fresh
record; in both cases the record at the returned address reads as fully
zeroed afterwards. -/
theorem allocation_recycles_and_zeroes
    (s t : Contree) (pa ci : ℕ) (s' t' : Contree) (a b : Addr)
    (hin : s.new_root_node = .ok (s', a))
    (hlf : t.new_leaf_node pa ci = .ok (t', b)) :
    ((s.inner_tombstones = [] →
        a = s.inners.length ∧ s'.inners.length = s.inners.length + 1) ∧
     (∀ ts a0, s.inner_tombstones = ts ++ [a0] →
        a = a0 ∧ s'.inners.length = s.inners.length ∧ s'.inner_tombstones = ts) ∧
     s'.inners[a]? = some zeroInner) ∧
    ((t.leaf_tombstones = [] →
        b = t.leaves.length ∧ t'.leaves.length = t.leaves.length + 1) ∧
     (∀ ts b0, t.leaf_tombstones = ts ++ [b0] →
        b = b0 ∧ t'.leaves.length = t.leaves.length ∧ t'.leaf_tombstones = ts) ∧
     t'.leaves[b]? = some zeroLeaf) := by
  constructor
  · simp only [Contree.new_root_node] at hin
    split at hin
    next addr hpop =>
      split at hin
      next hlt =>
        simp only [Except.ok.injEq, Prod.mk.injEq] at hin
        obtain ⟨hs', ha⟩ := hin
        subst ha
        refine ⟨fun hts => ?_, fun ts a0 hts => ?_, ?_⟩
        · rw [hts] at hpop; simp at hpop
        · rw [hts, List.getLast?_concat, Option.some.injEq] at hpop
          subst hpop
          refine ⟨rfl, ?_, ?_⟩
          · rw [← hs']; simp
          · rw [← hs']; simp [hts, List.dropLast_concat]
        · rw [← hs']
          simpa using List.getElem?_set_self hlt
      next hlt => simp at hin
    next hpop =>
      simp only [Except.ok.injEq, Prod.mk.injEq] at hin
      obtain ⟨hs', ha⟩ := hin
      have hts := List.getLast?_eq_none_iff.mp hpop
      subst ha
      refine ⟨fun _ => ⟨rfl, by rw [← hs']; simp⟩, ?_, ?_⟩
      · intro ts a0 habs
        rw [hts] at habs
        exact absurd habs.symm (by simp)
      · rw [← hs']
        simp [List.getElem?_concat_length]
  · simp only [Contree.new_leaf_node, Except.bind] at hlf
    split at hlf
    next e => exact absurd hlf (by simp)
    next v hpop =>
      split at hpop
      next addr hget =>
        split at hpop
        next hlt =>
          rw [Except.ok.injEq] at hpop
          subst hpop
          split at hlf
          next hpn => exact absurd hlf (by simp)
          next pnode hpn =>
            simp only [Contree.update_parent_bitflags] at hlf
            have hpa : pa < t.inners.length := by
              have := (List.getElem?_eq_some.mp hpn).1
              simpa using this
            rw [List.getElem?_set_self (by simpa using hpa)] at hlf
            simp only [Except.ok.injEq, Prod.mk.injEq] at hlf
            obtain ⟨ht', hb⟩ := hlf
            subst hb
            refine ⟨fun hts => ?_, fun ts b0 hts => ?_, ?_⟩
            · rw [hts] at hget; simp at hget
            · rw [hts, List.getLast?_concat, Option.some.injEq] at hget
              subst hget
              refine ⟨rfl, ?_, ?_⟩
              · rw [← ht']; simp
              · rw [← ht']; simp [hts, List.dropLast_concat]
            · rw [← ht']
              simpa using List.getElem?_set_self hlt
        next hlt => exact absurd hpop (by simp)
      next hget =>
        rw [Except.ok.injEq] at hpop
        subst hpop
        have hts0 := List.getLast?_eq_none_iff.mp hget
        split at hlf
        next hpn => exact absurd hlf (by simp)
        next pnode hpn =>
          simp only [Contree.update_parent_bitflags] at hlf
          have hpa : pa < t.inners.length := by
            have := (List.getElem?_eq_some.mp hpn).1
            simpa using this
          rw [List.getElem?_set_self (by simpa using hpa)] at hlf
          simp only [Except.ok.injEq, Prod.mk.injEq] at hlf
          obtain ⟨ht', hb⟩ := hlf
          subst hb
          refine ⟨fun _ => ⟨rfl, by rw [← ht']; simp⟩, ?_, ?_⟩
          · intro ts b0 habs
            rw [hts0] at habs
            exact absurd habs.symm (by simp)
          · rw [← ht']
            simp [List.getElem?_concat_length]

/-- Witness for C3 on `tombDemo`, whose tombstone lists are `[1]` and `[0]`:
both allocations recycle the tombstone and the records read as zeroed. -/
theorem allocation_recycles_and_zeroes_witness :
    tombDemo.new_root_node = .ok (tombDemoInner, 1) ∧
    tombDemo.new_leaf_node 0 3 = .ok (tombDemoLeaf, 0) ∧
    tombDemoInner.inners[(1 : ℕ)]? = some zeroInner ∧
    tombDemoInner.inner_tombstones = [] ∧
    tombDemoInner.inners.length = tombDemo.inners.length ∧
    tombDemoLeaf.leaves[(0 : ℕ)]? = some zeroLeaf ∧
    tombDemoLeaf.leaf_tombstones = [] ∧
    tombDemoLeaf.leaves.length = tombDemo.leaves.length := by
  have h1 : tombDemo.new_root_node = .ok (tombDemoInner, 1) := by decide
  have h2 : tombDemo.new_leaf_node 0 3 = .ok (tombDemoLeaf, 0) := by decide
  obtain ⟨hi, hl⟩ := allocation_recycles_and_zeroes tombDemo tombDemo 0 3
    tombDemoInner tombDemoLeaf 1 0 h1 h2
  exact ⟨h1, h2, hi.2.2, (hi.2.1 [] 1 rfl).2.2, (hi.2.1 [] 1 rfl).2.1,
    hl.2.2, (hl.2.1 [] 0 rfl).2.2, (hl.2.1 [] 0 rfl).2.1⟩

/-! ## C10: inserting into an existing leaf touches only that leaf -/

/-- C10: when `find` resolves position `p` to an existing leaf, `insert`
writes the material and occupancy bit into that one leaf record and leaves
every other component of the state unchanged, allocating nothing. -/
theorem insert_existing_leaf_frame
    (s : Contree) (p : Pos) (m : ℕ) (fr : FindResult) (la : Addr)
    (s' : Contree) (r : List Addr)
    (hfind : s.find p [] = .ok fr) (hla : fr.leaf_address = some la)
    (hok : s.insert p m = .ok (s', r)) :
    ∃ leaf ci, s.leaves[la]? = some leaf ∧
      fr.traversal_stack.getLast? = some ci ∧
      s'.leaves = s.leaves.set la
        ({ leaf with children := leaf.children.set ci m,
                     contains := leaf.contains ||| (1 <<< ci) }) ∧
      s'.leaves[la]? = some
        ({ leaf with children := leaf.children.set ci m,
                     contains := leaf.contains ||| (1 <<< ci) }) ∧
      (∀ j, j ≠ la → s'.leaves[j]? = s.leaves[j]?) ∧
      s'.leaves.length = s.leaves.length ∧
      s'.inners = s.inners ∧ s'.root = s.root ∧ s'.size = s.size ∧
      s'.center_offset = s.center_offset ∧
      s'.inner_tombstones = s.inner_tombstones ∧
      s'.leaf_tombstones = s.leaf_tombstones ∧ r = fr.parent_addrs := by
  simp only [Contree.insert] at hok
  cases hbb : s.in_bounds p with
  | false =>
      rw [hbb] at hok
      simp only [Bool.false_eq_true, if_false] at hok
      rcases hnr : s.new_root_node with e | v <;> simp [hnr, Except.bind] at hok
  | true =>
      rw [hbb] at hok
      simp only [if_true] at hok
      rw [hfind] at hok
      simp only [Except.bind] at hok
      split at hok
      next leaf_addr hfla =>
          rw [hla, Option.some.injEq] at hfla
          subst hfla
          split at hok
          next hleaf => exact absurd hok (by simp)
          next leaf hleaf =>
            split at hok
            next hci => exact absurd hok (by simp)
            next ci hci =>
              simp only [Except.ok.injEq, Prod.mk.injEq] at hok
              obtain ⟨hs', hr⟩ := hok
              have hlt : la < s.leaves.length := (List.getElem?_eq_some.mp hleaf).1
              subst hs'
              exact ⟨leaf, ci, hleaf, hci, rfl, List.getElem?_set_self hlt,
                fun j hj => List.getElem?_set_ne (fun h => hj h.symm), by simp,
                rfl, rfl, rfl, rfl, rfl, rfl, hr.symm⟩
      next hfla => rw [hla] at hfla; exact absurd hfla (by simp)

/-- Witness for C10 on the source's `traverse_tiny` state: inserting
material 7 at `(0,0,0)` rewrites only leaf 0. -/
theorem insert_existing_leaf_frame_witness :
    tinyTree.find (0, 0, 0) [] = .ok ⟨some 0, [0], [0], 1⟩ ∧
    tinyTree.insert (0, 0, 0) 7 = .ok (tinyTreeAfter, [0]) ∧
    (∃ leaf ci, tinyTree.leaves[(0 : ℕ)]? = some leaf ∧
      (⟨some 0, [0], [0], 1⟩ : FindResult).traversal_stack.getLast? = some ci ∧
      tinyTreeAfter.leaves = tinyTree.leaves.set 0
        ({ leaf with children := leaf.children.set ci 7,
                     contains := leaf.contains ||| (1 <<< ci) }) ∧
      tinyTreeAfter.leaves[(0 : ℕ)]? = some
        ({ leaf with children := leaf.children.set ci 7,
                     contains := leaf.contains ||| (1 <<< ci) }) ∧
      (∀ j, j ≠ 0 → tinyTreeAfter.leaves[j]? = tinyTree.leaves[j]?) ∧
      tinyTreeAfter.leaves.length = tinyTree.leaves.length ∧
      tinyTreeAfter.inners = tinyTree.inners ∧
      tinyTreeAfter.root = tinyTree.root ∧
      tinyTreeAfter.size = tinyTree.size ∧
      tinyTreeAfter.center_offset = tinyTree.center_offset ∧
      tinyTreeAfter.inner_tombstones = tinyTree.inner_tombstones ∧
      tinyTreeAfter.leaf_tombstones = tinyTree.leaf_tombstones ∧
      ([0] : List Addr) = (⟨some 0, [0], [0], 1⟩ : FindResult).parent_addrs) := by
  have h1 : tinyTree.find (0, 0, 0) [] = .ok ⟨some 0, [0], [0], 1⟩ := by
    simp only [Contree.find, normalize16_zero tinyTree rfl rfl]
    decide
  have h2 : tinyTree.insert (0, 0, 0) 7 = .ok (tinyTreeAfter, [0]) := by
    simp only [Contree.insert, in_bounds16_zero tinyTree rfl rfl, Contree.find,
      normalize16_zero tinyTree rfl rfl]
    decide
  exact ⟨h1, h2,
    insert_existing_leaf_frame tinyTree (0, 0, 0) 7 _ 0 _ _ h1 rfl h2⟩

/-! ## C9: the host state never depends on the device mirror binding -/

/-- Two states with equal host parts differ only in the `gpu` field. -/
lemma eq_gpu_update (a b : Contree) (h : a.host = b.host) :
    b = { a with gpu := b.gpu } := by
  cases a; cases b
  simp only [Contree.host, Prod.mk.injEq] at h
  obtain ⟨h1, h2, h3, h4, h5, h6, h7⟩ := h
  simp_all

/-- Elimination form of host-outcome agreement for state-and-value
returning operations. -/
lemma mapHost_elim {α : Type} {x y : Except String (Contree × α)}
    (h : x.map (fun r => (r.1.host, r.2)) = y.map (fun r => (r.1.host, r.2))) :
    (∀ e, y = .error e → x = .error e) ∧
    (∀ t a, y = .ok (t, a) → ∃ g, x = .ok ({ t with gpu := g }, a)) := by
  constructor
  · intro e hy
    subst hy
    cases x with
    | error e' => simpa [Except.map] using h
    | ok r => simp [Except.map] at h
  · intro t a hy
    subst hy
    cases x with
    | error e' => simp [Except.map] at h
    | ok r =>
        simp only [Except.map, Except.ok.injEq, Prod.mk.injEq] at h
        refine ⟨r.1.gpu, ?_⟩
        have := eq_gpu_update t r.1 h.1.symm
        rw [← this, ← h.2]

/-- Elimination form for state-returning operations. -/
lemma mapHostS_elim {x y : Except String Contree}
    (h : x.map Contree.host = y.map Contree.host) :
    (∀ e, y = .error e → x = .error e) ∧
    (∀ t, y = .ok t → ∃ g, x = .ok ({ t with gpu := g })) := by
  constructor
  · intro e hy
    subst hy
    cases x with
    | error e' => simpa [Except.map] using h
    | ok r => simp [Except.map] at h
  · intro t hy
    subst hy
    cases x with
    | error e' => simp [Except.map] at h
    | ok r =>
        simp only [Except.map, Except.ok.injEq] at h
        exact ⟨r.gpu, by rw [← eq_gpu_update t r h.symm]⟩

lemma new_root_node_host (s : Contree) (g : GPUBinding) :
    (({ s with gpu := g } : Contree).new_root_node).map (fun r => (r.1.host, r.2)) =
      (s.new_root_node).map (fun r => (r.1.host, r.2)) := by
  simp only [Contree.new_root_node]
  cases hpop : s.inner_tombstones.getLast? with
  | none => simp [Except.map, Contree.host]
  | some addr =>
      by_cases hlt : addr < s.inners.length
      · simp [hlt, Except.map, Contree.host]
      · simp [hlt, Except.map]

lemma update_parent_bitflags_host (s : Contree) (g : GPUBinding)
    (parent : Addr) (child : ChildIndex) (ex lf li : Bool) :
    (({ s with gpu := g } : Contree).update_parent_bitflags parent child ex lf li).map
        Contree.host =
      (s.update_parent_bitflags parent child ex lf li).map Contree.host := by
  simp only [Contree.update_parent_bitflags]
  cases hpn : s.inners[parent]? with
  | none => simp [Except.map]
  | some node => simp [Except.map, Contree.host]

lemma find_go_setGpu (s : Contree) (g : GPUBinding) :
    ∀ (fuel : ℕ) (stack : List ChildIndex) (parents : List Addr) (cur : ContreeInner),
      ({ s with gpu := g } : Contree).find_go fuel stack parents cur =
        s.find_go fuel stack parents cur := by
  intro fuel
  induction fuel with
  | zero => intro stack parents cur; rfl
  | succ f ih =>
      intro stack parents cur
      simp only [Contree.find_go, ih]

lemma find_setGpu (s : Contree) (g : GPUBinding) (p : Pos) (given : List Addr) :
    ({ s with gpu := g } : Contree).find p given = s.find p given := by
  have hn : ({ s with gpu := g } : Contree).normalize p = s.normalize p := rfl
  simp only [Contree.find, find_go_setGpu, hn]

lemma new_inner_node_host (s : Contree) (g : GPUBinding) (parent : Addr)
    (index : ChildIndex) :
    (({ s with gpu := g } : Contree).new_inner_node parent index).map
        (fun r => (r.1.host, r.2)) =
      (s.new_inner_node parent index).map (fun r => (r.1.host, r.2)) := by
  simp only [Contree.new_inner_node]
  obtain ⟨herr, hok⟩ := mapHost_elim (new_root_node_host s g)
  cases hnr : s.new_root_node with
  | error e =>
      rw [herr e hnr]
  | ok r =>
      obtain ⟨t, a⟩ := r
      obtain ⟨g1, hmod⟩ := hok t a hnr
      rw [hmod]
      simp only [Except.bind]
      cases hpn : t.inners[parent]? with
      | none => simp [hpn, Except.map]
      | some pnode =>
          simp only [hpn]
          obtain ⟨herr2, hok2⟩ := mapHostS_elim (update_parent_bitflags_host
            ({ t with inners := t.inners.set parent ({ pnode with children := pnode.children.set index a }) }) g1
            parent index true false false)
          cases hub : ({ t with inners := t.inners.set parent ({ pnode with children := pnode.children.set index a }) } : Contree).update_parent_bitflags
              parent index true false false with
          | error e =>
              rw [herr2 e hub]
          | ok u =>
              obtain ⟨g2, hmod2⟩ := hok2 u hub
              rw [hmod2]
              simp [Except.bind, Except.map, Contree.host]

lemma new_leaf_node_host (s : Contree) (g : GPUBinding) (parent : Addr)
    (index : ChildIndex) :
    (({ s with gpu := g } : Contree).new_leaf_node parent index).map
        (fun r => (r.1.host, r.2)) =
      (s.new_leaf_node parent index).map (fun r => (r.1.host, r.2)) := by
  simp only [Contree.new_leaf_node, Except.bind]
  cases hpop : s.leaf_tombstones.getLast? with
  | none =>
      simp only [hpop]
      cases hpn : s.inners[parent]? with
      | none => simp [hpn, Except.map]
      | some pnode =>
          simp only [hpn]
          obtain ⟨herr2, hok2⟩ := mapHostS_elim (update_parent_bitflags_host
            ({ s with leaves := s.leaves ++ [zeroLeaf], inners := s.inners.set parent ({ pnode with children := pnode.children.set index s.leaves.length }) }) g
            parent index true true false)
          cases hub : ({ s with leaves := s.leaves ++ [zeroLeaf], inners := s.inners.set parent ({ pnode with children := pnode.children.set index s.leaves.length }) } : Contree).update_parent_bitflags
              parent index true true false with
          | error e =>
              rw [herr2 e hub]
          | ok u =>
              obtain ⟨g2, hmod2⟩ := hok2 u hub
              rw [hmod2]
              simp [Except.map, Contree.host]
  | some addr =>
      simp only [hpop]
      by_cases hlt : addr < s.leaves.length
      · simp only [hlt, if_true]
        cases hpn : s.inners[parent]? with
        | none => simp [hpn, Except.map]
        | some pnode =>
            simp only [hpn]
            obtain ⟨herr2, hok2⟩ := mapHostS_elim (update_parent_bitflags_host
              ({ s with leaves := s.leaves.set addr zeroLeaf, leaf_tombstones := s.leaf_tombstones.dropLast, inners := s.inners.set parent ({ pnode with children := pnode.children.set index addr }) }) g
              parent index true true false)
            cases hub : ({ s with leaves := s.leaves.set addr zeroLeaf, leaf_tombstones := s.leaf_tombstones.dropLast, inners := s.inners.set parent ({ pnode with children := pnode.children.set index addr }) } : Contree).update_parent_bitflags
                parent index true true false with
            | error e =>
                rw [herr2 e hub]
            | ok u =>
                obtain ⟨g2, hmod2⟩ := hok2 u hub
                rw [hmod2]
                simp [Except.map, Contree.host]
      · simp [hlt, Except.map]

lemma add_parents_go_host (stack : List ChildIndex) :
    ∀ (i : ℕ) (s : Contree) (g : GPUBinding) (parents : List Addr) (la : Addr),
      (Contree.add_parents_go stack i { s with gpu := g } parents la).map
          (fun r => (r.1.host, r.2)) =
        (Contree.add_parents_go stack i s parents la).map (fun r => (r.1.host, r.2)) := by
  intro i
  induction i using Nat.strong_induction_on with
  | _ i ih =>
      intro s g parents la
      rcases i with _ | (_ | n)
      · simp only [Contree.add_parents_go]
        cases parents.getLast? <;> simp [Except.map, Contree.host]
      · simp only [Contree.add_parents_go]
        cases hpl : parents.getLast? with
        | none => simp [Except.map]
        | some parent =>
            simp only [hpl]
            obtain ⟨herr, hok⟩ := mapHost_elim (new_leaf_node_host s g parent (stack.getD 1 0))
            cases hnl : s.new_leaf_node parent (stack.getD 1 0) with
            | error e =>
                rw [herr e hnl]
            | ok r =>
                obtain ⟨g1, hmod⟩ := hok r.1 r.2 (by rw [hnl])
                rw [hmod]
                simp [Except.bind, Except.map, Contree.host]
      · simp only [Contree.add_parents_go]
        cases hpl : parents.getLast? with
        | none => simp [Except.map]
        | some parent =>
            simp only [hpl]
            obtain ⟨herr, hok⟩ := mapHost_elim (new_inner_node_host s g parent (stack.getD (n + 2) 0))
            cases hni : s.new_inner_node parent (stack.getD (n + 2) 0) with
            | error e =>
                rw [herr e hni]
            | ok r =>
                obtain ⟨g1, hmod⟩ := hok r.1 r.2 (by rw [hni])
                rw [hmod]
                simp only [Except.bind]
                exact ih (n + 1) (by omega) r.1 g1 (parents ++ [r.2]) la

lemma add_parents_host (s : Contree) (g : GPUBinding) (stack : List ChildIndex)
    (parents : List Addr) :
    (({ s with gpu := g } : Contree).add_parents stack parents).map
        (fun r => (r.1.host, r.2)) =
      (s.add_parents stack parents).map (fun r => (r.1.host, r.2)) := by
  cases stack with
  | nil => rfl
  | cons d rest => exact add_parents_go_host (d :: rest) ((d :: rest).length - 1) s g parents 0

lemma insert_host (s : Contree) (g : GPUBinding) (p : Pos) (m : ℕ) :
    (({ s with gpu := g } : Contree).insert p m).map (fun r => (r.1.host, r.2)) =
      (s.insert p m).map (fun r => (r.1.host, r.2)) := by
  have hb : ({ s with gpu := g } : Contree).in_bounds p = s.in_bounds p := rfl
  simp only [Contree.insert, hb, find_setGpu]
  cases hbb : s.in_bounds p with
  | false =>
      simp only [Bool.false_eq_true, if_false]
      obtain ⟨herr, hok⟩ := mapHost_elim (new_root_node_host s g)
      cases hnr : s.new_root_node with
      | error e =>
          rw [herr e hnr]
      | ok r =>
          obtain ⟨g1, hmod⟩ := hok r.1 r.2 (by rw [hnr])
          rw [hmod]
          simp [Except.bind]
  | true =>
      simp only [if_true]
      cases hf : s.find p [] with
      | error e => simp [Except.bind]
      | ok fr =>
          simp only [Except.bind]
          cases hla : fr.leaf_address with
          | some la =>
              simp only [hla]
              cases hlv : s.leaves[la]? with
              | none => simp [hlv, Except.map]
              | some leaf =>
                  simp only [hlv]
                  cases hci : fr.traversal_stack.getLast? with
                  | none => simp [hci, Except.map]
                  | some ci => simp [hci, Except.map, Contree.host]
          | none =>
              simp only [hla]
              obtain ⟨herr, hok⟩ := mapHost_elim
                (add_parents_host s g fr.traversal_stack fr.parent_addrs)
              cases hap : s.add_parents fr.traversal_stack fr.parent_addrs with
              | error e =>
                  rw [herr e hap]
              | ok r =>
                  obtain ⟨g1, hmod⟩ := hok r.1 r.2 (by rw [hap])
                  rw [hmod]
                  simp only [Except.bind]
                  cases hlv : r.1.leaves[r.2.2.1]? with
                  | none => simp [hlv, Except.map]
                  | some leaf => simp [hlv, Except.map, Contree.host]

/-- C9: for every sequence of `insert`/`find` calls, the host part of the
resulting state and every return value (and every Rust panic) are the same
whatever the mirror binding is — detached (`Dummy`), a live channel, or a
channel whose consumer was dropped; a failed or suppressed send never
changes an outcome. -/
theorem host_independent_of_gpu_binding (s : Contree) (g : GPUBinding)
    (ops : List Op) :
    (Contree.run { s with gpu := g } ops).map (fun r => (r.1.host, r.2)) =
      (Contree.run s ops).map (fun r => (r.1.host, r.2)) := by
  induction ops generalizing s g with
  | nil => simp [Contree.run, Except.map, Contree.host]
  | cons op ops ih =>
      cases op with
      | ins p m =>
          simp only [Contree.run]
          obtain ⟨herr, hok⟩ := mapHost_elim (insert_host s g p m)
          cases hi : s.insert p m with
          | error e =>
              rw [herr e hi]
          | ok r =>
              obtain ⟨g1, hmod⟩ := hok r.1 r.2 (by rw [hi])
              rw [hmod]
              simp only [Except.bind]
              obtain ⟨herr2, hok2⟩ := mapHost_elim (ih r.1 g1)
              cases hr : Contree.run r.1 ops with
              | error e =>
                  rw [herr2 e hr]
              | ok t =>
                  obtain ⟨g2, hmod2⟩ := hok2 t.1 t.2 (by rw [hr])
                  rw [hmod2]
                  simp [Except.map, Contree.host]
      | fnd p given =>
          simp only [Contree.run, find_setGpu]
          cases hf : s.find p given with
          | error e => simp [Except.bind]
          | ok fr =>
              simp only [Except.bind]
              obtain ⟨herr2, hok2⟩ := mapHost_elim (ih s g)
              cases hr : Contree.run s ops with
              | error e =>
                  rw [herr2 e hr]
              | ok t =>
                  obtain ⟨g2, hmod2⟩ := hok2 t.1 t.2 (by rw [hr])
                  rw [hmod2]
                  simp [Except.map, Contree.host]

/-! ## C5 and C8: reachable states -/

lemma to_base_64_eval_one (code : ℕ) (h : code < 64) :
    Contree.to_base_64 code = [code] := by
  rcases Nat.eq_zero_or_pos code with h0 | h0
  · subst h0; rfl
  · rw [Contree.to_base_64, if_neg (by omega)]
    rw [show to_base_64_go 64 code =
      if code = 0 then [] else (code &&& 63) :: to_base_64_go 63 (code >>> 6) from rfl]
    rw [if_neg (by omega)]
    have h6 : code >>> 6 = 0 := by
      rw [Nat.shiftRight_eq_div_pow]
      exact Nat.div_eq_of_lt (lt_of_lt_of_le h (by norm_num))
    have hand : code &&& 63 = code := by
      rw [show (63 : ℕ) = 2 ^ 6 - 1 from rfl, Nat.and_pow_two_sub_one_eq_mod]
      exact Nat.mod_eq_of_lt (lt_of_lt_of_le h (by norm_num))
    rw [h6, hand]
    rfl

lemma to_base_64_eval_two (code : ℕ) (h1 : 64 ≤ code) (h2 : code < 4096) :
    Contree.to_base_64 code = [code &&& 63, code >>> 6] := by
  have h6 : code >>> 6 = code / 64 := by
    rw [Nat.shiftRight_eq_div_pow]
  have hlow : 1 ≤ code / 64 := (Nat.one_le_div_iff (by norm_num)).mpr h1
  have hhigh : code / 64 < 64 := Nat.div_lt_of_lt_mul (by omega)
  rw [Contree.to_base_64, if_neg (by omega)]
  rw [show to_base_64_go 64 code =
    if code = 0 then [] else (code &&& 63) :: to_base_64_go 63 (code >>> 6) from rfl]
  rw [if_neg (by omega)]
  rw [show to_base_64_go 63 (code >>> 6) = if code >>> 6 = 0 then []
    else ((code >>> 6) &&& 63) :: to_base_64_go 62 (code >>> 6 >>> 6) from rfl]
  rw [if_neg (by omega)]
  have h12 : code >>> 6 >>> 6 = 0 := by
    rw [h6, Nat.shiftRight_eq_div_pow]
    norm_num
    omega
  have hand : (code >>> 6) &&& 63 = code >>> 6 := by
    rw [show (63 : ℕ) = 2 ^ 6 - 1 from rfl, Nat.and_pow_two_sub_one_eq_mod]
    rw [h6]
    exact Nat.mod_eq_of_lt hhigh
  rw [h12, hand]
  rfl

lemma interleave_lt_1024 : ∀ v < 16, interleave v < 1024 := by decide

lemma morton_lt_4096 (x y z : ℕ) (hx : x < 16) (hy : y < 16) (hz : z < 16) :
    morton_code (x, y, z) < 4096 := by
  have hx' := interleave_lt_1024 x hx
  have hy' := interleave_lt_1024 y hy
  have hz' := interleave_lt_1024 z hz
  have e1 : interleave x <<< 2 < 2 ^ 12 := by
    rw [Nat.shiftLeft_eq]; norm_num; omega
  have e2 : interleave y <<< 1 < 2 ^ 12 := by
    rw [Nat.shiftLeft_eq]; norm_num; omega
  have e3 : interleave z < 2 ^ 12 := by norm_num; omega
  have : morton_code (x, y, z) < 2 ^ 12 :=
    Nat.or_lt_two_pow (Nat.or_lt_two_pow e1 e2) e3
  simpa using this

lemma toU32_ratTrunc_lt_16 (q : ℚ) (hq0 : (0 : ℚ) ≤ q) (hq16 : q < 16) :
    toU32 (ratTrunc q) < 16 := by
  rw [ratTrunc, if_neg (not_lt.mpr hq0)]
  have h1 : ⌊q⌋ < 16 := Int.floor_lt.mpr (by exact_mod_cast hq16)
  rw [toU32]
  omega

lemma normalize_component_lt (x : ℚ)
    (h : toU32 (ratRound (svo_abs x)) < 8) :
    toU32 (ratTrunc (x + 17 / 2)) < 16 := by
  apply toU32_ratTrunc_lt_16
  · by_cases hx : x < 0
    · by_cases hx1 : -x - 1 < 0
      · nlinarith
      · rw [svo_abs, if_pos hx, ratRound, if_neg (not_lt.mpr (not_lt.mp hx1))] at h
        rw [toU32] at h
        have h8 : ⌊-x - 1 + 1 / 2⌋ < 8 := by omega
        have := Int.floor_lt.mp h8
        push_cast at this
        nlinarith
    · nlinarith [not_lt.mp hx]
  · by_cases hx : x < 0
    · nlinarith
    · rw [svo_abs, if_neg hx, ratRound, if_neg hx] at h
      rw [toU32] at h
      have h8 : ⌊x + 1 / 2⌋ < 8 := by omega
      have := Int.floor_lt.mp h8
      push_cast at this
      nlinarith

lemma normalize_lt_16 (s : Contree) (hsize : s.size = 16)
    (hcen : s.center_offset = (0, 0, 0)) (p : Pos) (hb : s.in_bounds p = true) :
    (s.normalize p).1 < 16 ∧ (s.normalize p).2.1 < 16 ∧ (s.normalize p).2.2 < 16 := by
  rw [Contree.in_bounds] at hb
  simp only [hcen, hsize, decide_eq_true_eq] at hb
  have e1 : toU32 (ratRound (svo_abs (p.1 - 0))) < 8 := by omega
  have e2 : toU32 (ratRound (svo_abs (p.2.1 - 0))) < 8 := by omega
  have e3 : toU32 (ratRound (svo_abs (p.2.2 - 0))) < 8 := by omega
  rw [Contree.normalize]
  simp only [hcen, hsize]
  refine ⟨?_, ?_, ?_⟩
  · rw [show p.1 - 0 + ((16 : ℕ) : ℚ) / 2 + 1 / 2 = (p.1 - 0) + 17 / 2 by push_cast; ring]
    exact normalize_component_lt (p.1 - 0) e1
  · rw [show p.2.1 - 0 + ((16 : ℕ) : ℚ) / 2 + 1 / 2 = (p.2.1 - 0) + 17 / 2 by push_cast; ring]
    exact normalize_component_lt (p.2.1 - 0) e2
  · rw [show p.2.2 - 0 + ((16 : ℕ) : ℚ) / 2 + 1 / 2 = (p.2.2 - 0) + 17 / 2 by push_cast; ring]
    exact normalize_component_lt (p.2.2 - 0) e3

lemma lor_and_self (x b : ℕ) : (x ||| b) &&& b = b := by
  apply Nat.eq_of_testBit_eq
  intro k
  cases hx : x.testBit k <;> cases hb : b.testBit k <;>
    simp [Nat.testBit_land, Nat.testBit_lor, hx, hb]

lemma lor_lor_self (x b : ℕ) : (x ||| b) ||| b = x ||| b := by
  apply Nat.eq_of_testBit_eq
  intro k
  cases hx : x.testBit k <;> cases hb : b.testBit k <;>
    simp [Nat.testBit_lor, hx, hb]

lemma one_shiftLeft_ne_zero (d : ℕ) : (1 <<< d) ≠ 0 := by
  rw [Nat.one_shiftLeft]
  exact (Nat.two_pow_pos d).ne'

lemma set_bit_and_other (x d i : ℕ) (hi : i < 64) (hne : i ≠ d) :
    ((x &&& not64 (1 <<< d)) ||| (1 <<< d)) &&& (1 <<< i) = x &&& (1 <<< i) := by
  apply Nat.eq_of_testBit_eq
  intro k
  simp only [not64, Nat.one_shiftLeft, Nat.testBit_land, Nat.testBit_lor,
    Nat.testBit_xor, Nat.testBit_two_pow, Nat.testBit_two_pow_sub_one]
  by_cases hk : i = k
  · subst hk
    have hdi : d ≠ i := fun h => hne h.symm
    simp [hi, hdi]
  · simp [hk]

lemma getD_set_self (l : List ℕ) (i v : ℕ) (h : i < l.length) :
    (l.set i v).getD i 0 = v := by
  rw [List.getD_eq_getElem?_getD, List.getElem?_set_self h]
  rfl

lemma getD_set_other (l : List ℕ) (i j v : ℕ) (h : i ≠ j) :
    (l.set i v).getD j 0 = l.getD j 0 := by
  rw [List.getD_eq_getElem?_getD, List.getElem?_set_ne h, ← List.getD_eq_getElem?_getD]

lemma find_go_one_step (s : Contree) (f : ℕ) (stack : List ChildIndex)
    (d : ChildIndex) (parents : List Addr) (cur : ContreeInner) :
    Contree.find_go s (f + 1) (stack ++ [d]) parents cur =
      if cur.contains &&& (1 <<< d) ≠ 0 ∧ cur.leaf &&& (1 <<< d) ≠ 0 then
        .ok ⟨some (cur.children.getD d 0), stack, parents,
          s.size / 4 ^ (parents.length + 1)⟩
      else if cur.contains &&& (1 <<< d) ≠ 0 then
        (match s.inners[cur.children.getD d 0]? with
         | none => .error "index out of bounds"
         | some node =>
             Contree.find_go s f stack (parents ++ [cur.children.getD d 0]) node)
      else
        .ok ⟨none, stack ++ [d], parents, s.size / 4 ^ (parents.length - 1)⟩ := by
  simp only [Contree.find_go, List.getLast?_concat, List.dropLast_concat]

lemma find_go_single (s : Contree) (f : ℕ) (d : ChildIndex)
    (parents : List Addr) (cur : ContreeInner) :
    Contree.find_go s (f + 1) [d] parents cur =
      if cur.contains &&& (1 <<< d) ≠ 0 ∧ cur.leaf &&& (1 <<< d) ≠ 0 then
        .ok ⟨some (cur.children.getD d 0), [], parents,
          s.size / 4 ^ (parents.length + 1)⟩
      else if cur.contains &&& (1 <<< d) ≠ 0 then
        (match s.inners[cur.children.getD d 0]? with
         | none => .error "index out of bounds"
         | some node =>
             Contree.find_go s f [] (parents ++ [cur.children.getD d 0]) node)
      else
        .ok ⟨none, [d], parents, s.size / 4 ^ (parents.length - 1)⟩ := by
  have h := find_go_one_step s f [] d parents cur
  simpa using h

lemma find_eval (s : Contree) (r : ContreeInner) (hroot : s.root = 0)
    (hinn : s.inners = [r]) (p : Pos) :
    s.find p [] = Contree.find_go s
      (Contree.to_base_64 (morton_code (s.normalize p))).length
      (Contree.to_base_64 (morton_code (s.normalize p))) [0] r := by
  rw [Contree.find]
  simp [hinn, hroot]

lemma new_leaf_eval (s : Contree) (r : ContreeInner) (hlt : s.leaf_tombstones = [])
    (hinn : s.inners = [r]) (hgpu : s.gpu = .Dummy) (d : ℕ) :
    s.new_leaf_node 0 d = .ok
      ({ s with
          inners := [⟨(r.contains &&& not64 (1 <<< d)) ||| 1 <<< d,
            (r.leaf &&& not64 (1 <<< d)) ||| 1 <<< d,
            r.light &&& not64 (1 <<< d),
            r.children.set d s.leaves.length⟩],
          leaves := s.leaves ++ [zeroLeaf],
          gpu := .Dummy }, s.leaves.length) := by
  rw [Contree.new_leaf_node]
  simp only [hlt, List.getLast?_eq_none_iff.mpr rfl]
  simp only [Except.bind, hinn, hgpu]
  simp only [Contree.update_parent_bitflags]
  simp [GPUBinding.write_inner, GPUBinding.write_leaf, Nat.zero_shiftLeft]

lemma add_parents_one (s : Contree) (d : ℕ) :
    s.add_parents [d] [0] = .ok (s, [0], 0, d) := rfl

lemma add_parents_two (s : Contree) (r : ContreeInner) (hlt : s.leaf_tombstones = [])
    (hinn : s.inners = [r]) (hgpu : s.gpu = .Dummy) (d0 d1 : ℕ) :
    s.add_parents [d0, d1] [0] = .ok
      ({ s with
          inners := [⟨(r.contains &&& not64 (1 <<< d1)) ||| 1 <<< d1,
            (r.leaf &&& not64 (1 <<< d1)) ||| 1 <<< d1,
            r.light &&& not64 (1 <<< d1),
            r.children.set d1 s.leaves.length⟩],
          leaves := s.leaves ++ [zeroLeaf],
          gpu := .Dummy }, [0], s.leaves.length, d0) := by
  have step : s.add_parents [d0, d1] [0] =
      (s.new_leaf_node 0 d1).bind fun t =>
        Contree.add_parents_go [d0, d1] 0 t.1 [0] t.2 := rfl
  rw [step, new_leaf_eval s r hlt hinn hgpu d1]
  rfl

lemma insert_ok_cases (s : Contree) (hInv : ContreeInv s) (p : Pos) (m : ℕ)
    (s' : Contree) (rr : List Addr) (hok : s.insert p m = .ok (s', rr)) :
    ContreeInv s' ∧ s'.insert p m = .ok (s', rr) := by
  obtain ⟨hroot, hsize, hcen, hit, hlt, hgpu, r, hinn, hlc, hchl, hcb⟩ := hInv
  cases hb : s.in_bounds p with
  | false =>
      rw [Contree.insert, hb] at hok
      simp only [Bool.false_eq_true, if_false] at hok
      rw [Contree.new_root_node] at hok
      simp [hit, Except.bind] at hok
  | true =>
      obtain ⟨h1, h2, h3⟩ := normalize_lt_16 s hsize hcen p hb
      have hcode : morton_code (s.normalize p) < 4096 :=
        morton_lt_4096 (s.normalize p).1 (s.normalize p).2.1 (s.normalize p).2.2 h1 h2 h3
      set q := morton_code (s.normalize p) with hq
      by_cases hsm : q < 64
      · -- single-digit code
        have hstack := to_base_64_eval_one q hsm
        have hfe := find_eval s r hroot hinn p
        rw [← hq, hstack] at hfe
        rw [show Contree.find_go s [q].length [q] [0] r =
          Contree.find_go s (0 + 1) [q] [0] r from rfl, find_go_single] at hfe
        by_cases hbit : r.contains &&& (1 <<< q) ≠ 0
        · -- occupied slot: find returns a leaf with an empty residual stack and
          -- insert panics on `traversal_stack.last().unwrap()`
          rw [if_pos ⟨hbit, by rw [hlc]; exact hbit⟩] at hfe
          rw [Contree.insert, hb] at hok
          simp only [if_true] at hok
          rw [hfe] at hok
          simp only [Except.bind] at hok
          split at hok <;> simp at hok
        · -- empty slot: add_parents on a one-element stack returns leaf address 0
          rw [if_neg (fun hh => hbit hh.1), if_neg hbit] at hfe
          rw [Contree.insert, hb] at hok
          simp only [if_true] at hok
          rw [hfe] at hok
          simp only [Except.bind, add_parents_one] at hok
          cases hl0 : s.leaves[(0 : ℕ)]? with
          | none => rw [hl0] at hok; simp at hok
          | some L0 =>
              rw [hl0] at hok
              simp only [Except.ok.injEq, Prod.mk.injEq] at hok
              obtain ⟨hs', hrr⟩ := hok
              subst hrr
              have hlen0 : 0 < s.leaves.length := (List.getElem?_eq_some.mp hl0).1
              set L1 : ContreeLeaf :=
                ⟨L0.contains ||| 1 <<< q, L0.light, L0.children.set q m⟩ with hL1
              set s2 : Contree :=
                { s with leaves := s.leaves.set 0 L1,
                         gpu := s.gpu.write_leaf 0 [L1] } with hs2
              subst hs'
              have hgpu2 : s2.gpu = .Dummy := by rw [hs2]; simp [hgpu, GPUBinding.write_leaf]
              constructor
              · refine ⟨hroot, hsize, hcen, hit, hlt, hgpu2, r, hinn, hlc, hchl, ?_⟩
                intro i hi hbi
                rw [hs2]
                simp only [List.length_set]
                exact hcb i hi hbi
              · -- idempotence: the second insert repeats the same failed walk
                -- and rewrites leaf 0 with the values it already holds
                rw [Contree.insert, show s2.in_bounds p = true from hb]
                simp only [if_true]
                rw [find_eval s2 r hroot hinn p,
                  show s2.normalize p = s.normalize p from rfl, ← hq, hstack]
                rw [show Contree.find_go s2 [q].length [q] [0] r =
                  Contree.find_go s2 (0 + 1) [q] [0] r from rfl, find_go_single]
                rw [if_neg (fun hh => hbit hh.1), if_neg hbit]
                simp only [Except.bind, add_parents_one]
                simp only [show s2.leaves[(0 : ℕ)]? = some L1 from by
                  rw [hs2]; exact List.getElem?_set_self hlen0]
                have hL1' : (⟨L1.contains ||| 1 <<< q, L1.light, L1.children.set q m⟩ : ContreeLeaf) = L1 := by
                  rw [hL1]
                  simp [lor_lor_self, List.set_set]
                rw [hL1']
                have hset : s2.leaves.set 0 L1 = s2.leaves := by
                  rw [hs2]
                  simp [List.set_set]
                rw [hset]
                have hw : s2.gpu.write_leaf 0 [L1] = s2.gpu := by
                  rw [hgpu2]
                  rfl
                rw [hw]
      · -- two-digit code
        have hstack := to_base_64_eval_two q (le_of_not_lt hsm) hcode
        set d0 := q &&& 63 with hd0
        set d1 := q >>> 6 with hd1
        have hd0lt : d0 < 64 := lt_of_le_of_lt Nat.and_le_right (by norm_num)
        have hd1lt : d1 < 64 := by
          rw [hd1, Nat.shiftRight_eq_div_pow]
          exact Nat.div_lt_of_lt_mul (by norm_num; omega)
        have hfe := find_eval s r hroot hinn p
        rw [← hq, hstack] at hfe
        rw [show Contree.find_go s [d0, d1].length [d0, d1] [0] r =
          Contree.find_go s (1 + 1) ([d0] ++ [d1]) [0] r from rfl,
          find_go_one_step] at hfe
        by_cases hbit : r.contains &&& (1 <<< d1) ≠ 0
        · -- the root slot already holds a leaf
          rw [if_pos ⟨hbit, by rw [hlc]; exact hbit⟩] at hfe
          have hla : r.children.getD d1 0 < s.leaves.length := hcb d1 hd1lt hbit
          rw [Contree.insert, hb] at hok
          simp only [if_true] at hok
          rw [hfe] at hok
          simp only [Except.bind, List.getElem?_eq_getElem hla,
            List.getLast?_singleton] at hok
          simp only [Except.ok.injEq, Prod.mk.injEq] at hok
          obtain ⟨hs', hrr⟩ := hok
          subst hrr
          set la := r.children.getD d1 0 with hla'
          set L : ContreeLeaf := s.leaves[la] with hL
          set L1 : ContreeLeaf :=
            ⟨L.contains ||| 1 <<< d0, L.light, L.children.set d0 m⟩ with hL1
          set s2 : Contree :=
            { s with leaves := s.leaves.set la L1,
                     gpu := s.gpu.write_leaf la [L1] } with hs2
          subst hs'
          have hgpu2 : s2.gpu = .Dummy := by rw [hs2]; simp [hgpu, GPUBinding.write_leaf]
          constructor
          · refine ⟨hroot, hsize, hcen, hit, hlt, hgpu2, r, hinn, hlc, hchl, ?_⟩
            intro i hi hbi
            rw [hs2]
            simp only [List.length_set]
            exact hcb i hi hbi
          · rw [Contree.insert, show s2.in_bounds p = true from hb]
            simp only [if_true]
            rw [find_eval s2 r hroot hinn p,
              show s2.normalize p = s.normalize p from rfl, ← hq, hstack]
            rw [show Contree.find_go s2 [d0, d1].length [d0, d1] [0] r =
              Contree.find_go s2 (1 + 1) ([d0] ++ [d1]) [0] r from rfl,
              find_go_one_step]
            rw [if_pos ⟨hbit, by rw [hlc]; exact hbit⟩]
            have hla2 : la < s2.leaves.length := by
              rw [hs2]; simpa using hla
            simp only [Except.bind, List.getLast?_singleton,
              show s2.leaves[la]? = some L1 from by
                rw [hs2]; exact List.getElem?_set_self hla]
            have hL1' : (⟨L1.contains ||| 1 <<< d0, L1.light, L1.children.set d0 m⟩ : ContreeLeaf) = L1 := by
              rw [hL1]
              simp [lor_lor_self, List.set_set]
            rw [hL1']
            have hset : s2.leaves.set la L1 = s2.leaves := by
              rw [hs2]
              simp [List.set_set]
            rw [hset]
            have hw : s2.gpu.write_leaf la [L1] = s2.gpu := by
              rw [hgpu2]
              rfl
            rw [hw]
        · -- the root slot is empty: a new leaf is appended and wired in
          rw [if_neg (fun hh => hbit hh.1), if_neg hbit] at hfe
          rw [Contree.insert, hb] at hok
          simp only [if_true] at hok
          rw [hfe] at hok
          simp only [Except.bind, List.singleton_append] at hok
          rw [add_parents_two s r hlt hinn hgpu d0 d1] at hok
          set n := s.leaves.length with hn
          set node1 : ContreeInner :=
            ⟨(r.contains &&& not64 (1 <<< d1)) ||| 1 <<< d1,
             (r.leaf &&& not64 (1 <<< d1)) ||| 1 <<< d1,
             r.light &&& not64 (1 <<< d1),
             r.children.set d1 n⟩ with hnode1
          simp only [Except.bind,
            show (s.leaves ++ [zeroLeaf])[n]? = some zeroLeaf from by
              rw [hn]; exact List.getElem?_concat_length s.leaves zeroLeaf] at hok
          simp only [Except.ok.injEq, Prod.mk.injEq] at hok
          obtain ⟨hs', hrr⟩ := hok
          subst hrr
          set Lf : ContreeLeaf :=
            ⟨zeroLeaf.contains ||| 1 <<< d0, zeroLeaf.light, zeroLeaf.children.set d0 m⟩ with hLf
          set s2 : Contree :=
            { center_offset := s.center_offset, root := s.root, size := s.size,
              inners := [node1],
              leaves := (s.leaves ++ [zeroLeaf]).set n Lf,
              inner_tombstones := s.inner_tombstones,
              leaf_tombstones := s.leaf_tombstones,
              gpu := GPUBinding.Dummy.write_leaf n [Lf] } with hs2
          subst hs'
          have hgpu2 : s2.gpu = .Dummy := by rw [hs2]; rfl
          have hinn2 : s2.inners = [node1] := by rw [hs2]
          have hlen2 : s2.leaves.length = s.leaves.length + 1 := by
            rw [hs2]; simp
          have hchl1 : node1.children.length = 64 := by
            rw [hnode1]; simpa using hchl
          constructor
          · refine ⟨hroot, hsize, hcen, hit, hlt, hgpu2, node1, hinn2, ?_, hchl1, ?_⟩
            · rw [hnode1, hlc]
            · intro i hi hbi
              rw [hlen2]
              by_cases hid : i = d1
              · rw [hnode1]
                have hgd : (r.children.set d1 n).getD i 0 = n := by
                  rw [hid]
                  exact getD_set_self r.children d1 n (by rw [hchl]; exact hd1lt)
                simp only [hgd]
                omega
              · have hbi' : r.contains &&& 1 <<< i ≠ 0 := by
                  rw [hnode1] at hbi
                  simp only at hbi
                  rw [set_bit_and_other r.contains d1 i hi hid] at hbi
                  exact hbi
                have := hcb i hi hbi'
                rw [hnode1]
                have hgd : (r.children.set d1 n).getD i 0 = r.children.getD i 0 :=
                  getD_set_other r.children d1 i n (fun h => hid h.symm)
                simp only [hgd]
                omega
          · rw [Contree.insert, show s2.in_bounds p = true from hb]
            simp only [if_true]
            rw [find_eval s2 node1 hroot hinn2 p,
              show s2.normalize p = s.normalize p from rfl, ← hq, hstack]
            rw [show Contree.find_go s2 [d0, d1].length [d0, d1] [0] node1 =
              Contree.find_go s2 (1 + 1) ([d0] ++ [d1]) [0] node1 from rfl,
              find_go_one_step]
            have hbit2 : node1.contains &&& 1 <<< d1 ≠ 0 := by
              rw [hnode1]
              simp only
              rw [lor_and_self]
              exact one_shiftLeft_ne_zero d1
            have hbit2l : node1.leaf &&& 1 <<< d1 ≠ 0 := by
              rw [hnode1]
              simp only
              rw [lor_and_self]
              exact one_shiftLeft_ne_zero d1
            rw [if_pos ⟨hbit2, hbit2l⟩]
            have hgdn : node1.children.getD d1 0 = n := by
              rw [hnode1]
              exact getD_set_self r.children d1 n (by rw [hchl]; exact hd1lt)
            rw [hgdn]
            have hnlt : n < s2.leaves.length := by rw [hlen2, hn]; omega
            simp only [Except.bind, List.getLast?_singleton,
              show s2.leaves[n]? = some Lf from by
                rw [hs2]
                exact List.getElem?_set_self (by simp [hn])]
            have hLf' : (⟨Lf.contains ||| 1 <<< d0, Lf.light, Lf.children.set d0 m⟩ : ContreeLeaf) = Lf := by
              rw [hLf]
              simp [lor_lor_self, List.set_set]
            rw [hLf']
            have hset : s2.leaves.set n Lf = s2.leaves := by
              rw [hs2]
              simp [List.set_set]
            rw [hset]
            have hw : s2.gpu.write_leaf n [Lf] = s2.gpu := by
              rw [hgpu2]
              rfl
            rw [hw]

lemma default_inv : ContreeInv Contree.default := by
  refine ⟨rfl, rfl, rfl, rfl, rfl, rfl, zeroInner, rfl, rfl, by decide, ?_⟩
  intro i hi hbi
  exact absurd (by simp [zeroInner]) hbi

lemma reachable_inv (s : Contree) (hr : Reachable s) : ContreeInv s := by
  induction hr with
  | base => exact default_inv
  | step hr hok ih => exact (insert_ok_cases _ ih _ _ _ _ hok).1

/-! ## C5: insert is idempotent on reachable trees -/

/-- C5: on every reachable tree, inserting the same in-bounds `(p, m)` a
second time succeeds, returns the same ancestor list, and leaves the state
exactly as after the first insert — no node is allocated, no address is
leaked. -/
theorem insert_idempotent (s : Contree) (hr : Reachable s) (p : Pos) (m : ℕ)
    (s' : Contree) (rr : List Addr) (_hb : s.in_bounds p = true)
    (hok : s.insert p m = .ok (s', rr)) :
    s'.insert p m = .ok (s', rr) :=
  (insert_ok_cases s (reachable_inv s hr) p m s' rr hok).2

/-- Witness for C5: inserting `(0,0,0) ↦ 10` into the default tree twice. -/
theorem insert_idempotent_witness :
    Contree.default.in_bounds (0, 0, 0) = true ∧
    Contree.default.insert (0, 0, 0) 10 = .ok (defaultAfterInsert, [0]) ∧
    defaultAfterInsert.insert (0, 0, 0) 10 = .ok (defaultAfterInsert, [0]) := by
  have hb := in_bounds16_zero Contree.default rfl rfl
  have hok : Contree.default.insert (0, 0, 0) 10 = .ok (defaultAfterInsert, [0]) := by
    simp only [Contree.insert, hb, Contree.find,
      normalize16_zero Contree.default rfl rfl]
    decide
  exact ⟨hb, hok,
    insert_idempotent Contree.default Reachable.base (0, 0, 0) 10
      defaultAfterInsert [0] hb hok⟩

/-! ## C8: a leaf bit is always backed by an occupied bit -/

/-- C8: in every state reachable from the default construction by `insert`
and `find` calls, every inner node's `leaf` mask is contained in its
`contains` mask: `leaf &&& contains = leaf`, i.e. `leaf AND NOT contains`
is zero. -/
theorem reachable_leaf_le_contains (s : Contree) (hr : Reachable s)
    (i : ℕ) (node : ContreeInner) (hnode : s.inners[i]? = some node) :
    node.leaf &&& node.contains = node.leaf := by
  obtain ⟨-, -, -, -, -, -, r, hinn, hlc, -, -⟩ := reachable_inv s hr
  rw [hinn] at hnode
  cases i with
  | zero =>
      simp only [List.getElem?_cons_zero, Option.some.injEq] at hnode
      subst hnode
      rw [hlc]
      exact Nat.and_self _
  | succ j => simp at hnode

/-- Witness for C8 at the default construction's root node. -/
theorem reachable_leaf_le_contains_witness :
    Contree.default.inners[(0 : ℕ)]? = some zeroInner ∧
    zeroInner.leaf &&& zeroInner.contains = zeroInner.leaf :=
  ⟨rfl, reachable_leaf_le_contains Contree.default Reachable.base 0 zeroInner rfl⟩
